import Mathlib

/-!
# Verification of the `linked-list-arena` chunked bump allocator

Shallow embedding of `src/lib.rs` (`Arena`) and `src/double.rs`
(`DoublyLinkedArena`) from the `linked-list-arena` repository.

Modelling conventions:

* A `MaybeUninit<T>` slot is modelled as `Option T` (`none` = uninitialized,
  `some x` = holds the live element `x`).
* The singly linked chain of pinned chunks
  (`head_chunk : Pin<Box<Chunk>>`, `Chunk.next : Option<Link>`) is modelled
  by the head chunk's slot list together with the list of the successor
  chunks' slot lists (`next_chunks`), newest first — a transparent
  isomorphism of the linked structure.
* The raw cursor pointers `ptr` and `end` of `InnerArena` are modelled as
  slot indices into the head chunk (`ptr = cursor offset from chunk start`,
  `end_ = one-past-last offset`); `end` is a keyword in Lean, hence `end_`.
* A `&mut T` reference returned by `alloc` is modelled as a stable
  (chunk-age, slot-index) handle: `chunk` counts chunks from the oldest
  (the chunk created by the `k`-th growth event has age `k`), which never
  changes afterwards, mirroring pointer stability.
* `RefCell`/`Cell` interior mutability is modelled by explicit state
  passing; panics of `assert!` are modelled by boolean check functions.
-/

namespace LinkedListArena

/-- One storage slot: `MaybeUninit<T>`; `none` = uninitialized. -/
abbrev Slot (T : Type) := Option T

/-- The mutable allocation state stored inside `Arena.inner` when at least
one chunk exists (`InnerArena<N, T>` in `src/lib.rs`). -/
structure InnerArena (T : Type) where
  /-- Slots of the head (newest) chunk (`head_chunk.slots`). -/
  head_chunk : List (Slot T)
  /-- Slot lists of the successor chunks reachable through `Chunk.next`,
  newest first (the flattened `next` chain of `head_chunk`). -/
  next_chunks : List (List (Slot T))
  /-- Index of the next slot to be allocated in the head chunk
  (the pointer `ptr`, as an offset from the chunk start). -/
  ptr : Nat
  /-- Index one past the last slot of the head chunk (the pointer `end`). -/
  end_ : Nat
  deriving Repr, DecidableEq

/-- `Arena<N, T>` state: `inner : RefCell<Option<InnerArena<N, T>>>`. -/
abbrev Arena (T : Type) := Option (InnerArena T)

/-- A reference returned by `alloc`, as a stable (chunk-age, slot) handle:
`chunk` is the number of chunks that existed before this chunk was created
(oldest chunk has age 0). -/
structure Ref where
  chunk : Nat
  slot : Nat
  deriving Repr, DecidableEq

namespace Arena

/-- `Arena::new`: creates a new arena; allocates no memory, chain empty.
(The `assert!` it performs is modelled separately by `newChecks`.) -/
def new (T : Type) : Arena T := none

/-- The construction-time contract check of `Arena::new` in `src/lib.rs`:
`assert!(std::mem::size_of::<T>() != 0)`.  `true` = construction succeeds,
`false` = panic.  `N` is the chunk capacity const generic, `sizeT` the byte
size of the element type. -/
def newChecks (N sizeT : Nat) : Bool := sizeT != 0

/-- The chunk-allocation fallback of `Arena::alloc` (lines 61–87 of
`src/lib.rs`): take the old head chain, box a fresh chunk of `N`
uninitialized slots whose `next` is the old head, install it with
`ptr = start + 1`, `end = start + N`, and write `elem` into slot 0. -/
def allocNewChunk {T : Type} (N : Nat) (a : Arena T) (elem : T) :
    Arena T × Ref :=
  (some { head_chunk := (List.replicate N (none : Slot T)).set 0 (some elem)
          next_chunks := match a with
            | some ia => ia.head_chunk :: ia.next_chunks
            | none => []
          ptr := 1
          end_ := N },
   ⟨match a with
     | some ia => ia.next_chunks.length + 1
     | none => 0, 0⟩)

/-- `Arena::alloc`: if a head chunk exists and `ptr < end`, write `elem`
at `ptr` and advance `ptr`; otherwise allocate a new chunk
(`allocNewChunk`).  Returns the new state and the reference handle of the
written slot. -/
def alloc {T : Type} (N : Nat) (a : Arena T) (elem : T) : Arena T × Ref :=
  match a with
  | some ia =>
    if ia.ptr < ia.end_ then
      (some { ia with
                head_chunk := ia.head_chunk.set ia.ptr (some elem)
                ptr := ia.ptr + 1 },
       ⟨ia.next_chunks.length, ia.ptr⟩)
    else
      allocNewChunk N a elem
  | none => allocNewChunk N a elem

/-- `Arena::is_empty`: `self.inner.borrow().is_none()`. -/
def is_empty {T : Type} (a : Arena T) : Bool := a.isNone

/-- `Arena::free_slots_in_current_chunk`:
`self.inner.borrow().as_ref().map(|arena| end.offset_from(ptr))`. -/
def free_slots_in_current_chunk {T : Type} (a : Arena T) : Option Nat :=
  a.map fun ia => ia.end_ - ia.ptr

/-- The number of element-destructor calls performed by `Arena::destroy`
(lines 109–134 of `src/lib.rs`): on the head chunk, `assume_init_drop` is
called on each slot from the chunk start while the slot pointer is below
`arena.ptr` (exactly `ptr` calls); then every chunk on the `next` chain has
`assume_init_drop` called on all of its slots. -/
def destroyCount {T : Type} (a : Arena T) : Nat :=
  match a with
  | none => 0
  | some ia => ia.ptr + (ia.next_chunks.map List.length).sum

/-- All chunks of the arena, oldest first (the reversed head chain);
chunk age `k` is index `k` of this list. -/
def chunksOldestFirst {T : Type} (a : Arena T) : List (List (Slot T)) :=
  match a with
  | none => []
  | some ia => (ia.head_chunk :: ia.next_chunks).reverse

/-- Number of chunks currently owned by the arena. -/
def numChunks {T : Type} (a : Arena T) : Nat :=
  (chunksOldestFirst a).length

/-- Dereference a handle: the value stored in slot `r.slot` of the chunk
with age `r.chunk`, if that slot exists and is initialized. -/
def read {T : Type} (a : Arena T) (r : Ref) : Option T :=
  ((chunksOldestFirst a).getD r.chunk []).getD r.slot none

/-- Run a sequence of allocations starting from a fresh arena, returning
the final state. -/
def runAllocs {T : Type} (N : Nat) (vs : List T) : Arena T :=
  vs.foldl (fun a v => (alloc N a v).1) (new T)

end Arena

/-- The state invariant of `Arena` (spec I2/I3/I4), parametrized by the
chunk capacity `N`: when a chunk exists, `end = chunk_start + N` and
`cursor ≤ end`; the head chunk has exactly `N` slots, its slots before the
cursor are initialized and those at or after the cursor are uninitialized;
and every non-head chunk has `N` slots, all initialized. -/
abbrev Inv {T : Type} (N : Nat) (a : Arena T) : Prop :=
  match a with
  | none => True
  | some ia =>
      ia.end_ = N ∧ ia.ptr ≤ N ∧ ia.head_chunk.length = N ∧
      (∀ i, i < ia.ptr → (ia.head_chunk[i]?.getD none).isSome) ∧
      (∀ i, i < N → ia.ptr ≤ i → ia.head_chunk[i]? = some none) ∧
      (∀ c ∈ ia.next_chunks, c.length = N ∧ ∀ s ∈ c, s.isSome)

instance {T : Type} [DecidableEq T] (N : Nat) (a : Arena T) :
    Decidable (Inv N a) :=
  match a with
  | none => isTrue trivial
  | some _ => inferInstanceAs (Decidable (_ ∧ _))

/-- `DoublyLinkedArena<N, T>` state (`src/double.rs`): a
`LinkedList<[MaybeUninit<T>; N]>` of chunks in allocation order (push_back
appends, so the current chunk is the last), and `Cell<Option<NonNull<..>>>`
cursor and end pointers into the current chunk, modelled as slot indices. -/
structure DoublyLinkedArena (T : Type) where
  /-- The chunk list, oldest first; the back (last) chunk is the one being
  filled. -/
  list : List (List (Slot T))
  /-- Index of the next slot to be allocated in the back chunk, if any. -/
  ptr : Option Nat
  /-- Index one past the last slot of the back chunk, if any. -/
  end_ : Option Nat
  deriving Repr, DecidableEq

namespace DoublyLinkedArena

/-- `DoublyLinkedArena::new`: empty list, no cursor; no memory allocated.
(Its `assert!`s are modelled by `newChecks`.) -/
def new (T : Type) : DoublyLinkedArena T := ⟨[], none, none⟩

/-- The construction-time contract checks of `DoublyLinkedArena::new`:
`assert!(size_of::<T>() != 0); assert!(N != 0)`. `true` = success. -/
def newChecks (N sizeT : Nat) : Bool := sizeT != 0 && N != 0

/-- Replace the back (last) chunk's slot `p` with `some v`
(`list.back_mut().unwrap()` followed by the slot write). -/
def setBack {T : Type} (l : List (List (Slot T))) (p : Nat) (v : T) :
    List (List (Slot T)) :=
  match l.getLast? with
  | none => l
  | some c => l.dropLast ++ [c.set p (some v)]

/-- The fast path of `DoublyLinkedArena::alloc`: if `self.ptr` is set
(`if let Some(mut ptr) = self.ptr.get()`) and `ptr < end` (undefined `end`
would be an `unwrap` panic, modelled as `none`), write `elem` at the cursor
of the back chunk, advance the cursor, and return the slot's handle. -/
def tryFast {T : Type} (d : DoublyLinkedArena T) (elem : T) :
    Option (DoublyLinkedArena T × Ref) :=
  match d.ptr, d.end_ with
  | some p, some e =>
      if p < e then
        some ({ d with list := setBack d.list p elem, ptr := some (p + 1) },
              ⟨d.list.length - 1, p⟩)
      else none
  | _, _ => none

/-- `DoublyLinkedArena::alloc`: try the fast path; otherwise push a fresh
chunk of `N` uninitialized slots at the back, set `ptr` to its first slot
and `end_` to one past its last, and recurse.  The recursion can only take
the fast path (a second fallback would recurse forever in the source —
reachable only when `N = 0`, which `new` rejects — modelled as `none`). -/
def alloc {T : Type} (N : Nat) (d : DoublyLinkedArena T) (elem : T) :
    Option (DoublyLinkedArena T × Ref) :=
  match tryFast d elem with
  | some r => some r
  | none =>
      tryFast
        { d with
            list := d.list ++ [List.replicate N (none : Slot T)]
            ptr := some 0
            end_ := some N }
        elem

/-- `DoublyLinkedArena::is_empty`: `self.list.borrow().is_empty()`. -/
def is_empty {T : Type} (d : DoublyLinkedArena T) : Bool := d.list.isEmpty

/-- `DoublyLinkedArena::free_slots_in_current_chunk`:
`self.end.get().map(|end| end.offset_from(self.ptr.get().unwrap()))`
(the `unwrap` panic case is modelled as `none`; it is unreachable). -/
def free_slots_in_current_chunk {T : Type} (d : DoublyLinkedArena T) :
    Option Nat :=
  match d.end_, d.ptr with
  | some e, some p => some (e - p)
  | _, _ => none

/-- Dereference a handle in the doubly linked variant: chunk `r.chunk` in
allocation order, slot `r.slot`. -/
def read {T : Type} (d : DoublyLinkedArena T) (r : Ref) : Option T :=
  (d.list.getD r.chunk []).getD r.slot none

/-- Run a sequence of allocations from a fresh `DoublyLinkedArena`,
returning the final state (`none` if any allocation step fails, which
cannot happen for `N ≥ 1`). -/
def runAllocs {T : Type} (N : Nat) (vs : List T) :
    Option (DoublyLinkedArena T) :=
  vs.foldlM (fun d v => (alloc N d v).map Prod.fst) (new T)

end DoublyLinkedArena

/-- Coupling relation between an `Arena` state and a `DoublyLinkedArena`
state with the same capacity: the chunk contents coincide (the arena's
newest-first chain reversed is the list's allocation order) and the
cursors agree. -/
def Rel {T : Type} (a : Arena T) (d : DoublyLinkedArena T) : Prop :=
  match a with
  | none => d.ptr = none ∧ d.end_ = none ∧ d.list = []
  | some ia =>
      d.ptr = some ia.ptr ∧ d.end_ = some ia.end_ ∧
      d.list = (ia.head_chunk :: ia.next_chunks).reverse

/-- Element-destructor calls made when one `MaybeUninit<T>` slot is dropped
by Rust's drop glue: zero — by the documented semantics of
`std::mem::MaybeUninit`, dropping it never runs the destructor of the
possibly-contained value. -/
def slotDropGlueDtors {T : Type} (_s : Slot T) : Nat := 0

/-- Element-destructor calls made by the implicit teardown of an `Arena`
dropped without an explicit `destroy` call.  `Arena` in `src/lib.rs`
declares no `Drop` impl, so implicit teardown is the compiler-generated
drop glue: it drops the `RefCell`, the `Option`, and then the boxed chunk
chain, where each chunk drops its `[MaybeUninit<T>; N]` slots one by one
(`slotDropGlueDtors` calls each) and recursively follows `next`. -/
def implicitDropDtorCount {T : Type} (a : Arena T) : Nat :=
  match a with
  | none => 0
  | some ia =>
      (ia.head_chunk.map slotDropGlueDtors).sum +
        (ia.next_chunks.map fun c => (c.map slotDropGlueDtors).sum).sum

/-- Number of chunks whose memory the implicit teardown releases: the drop
glue of the boxed chain frees every chunk it visits (the head and each
successor). -/
def implicitDropFreedChunks {T : Type} (a : Arena T) : Nat :=
  match a with
  | none => 0
  | some ia => 1 + ia.next_chunks.length

/-! ## Helper lemmas about freshly allocated chunks -/

/-- Slot lookup in a fresh chunk whose first slot was just written. -/
theorem newChunk_getElem (N : Nat) {T : Type} (v : T) (i : Nat) :
    ((List.replicate N (none : Slot T)).set 0 (some v))[i]? =
      if i < N then (if i = 0 then some (some v) else some (none : Slot T))
      else none := by
  rcases Nat.eq_zero_or_pos i with hi | hi
  · subst hi
    by_cases h0 : 0 < N
    · rw [List.getElem?_set_self (by simpa using h0)]
      simp [h0]
    · have hN0 : N = 0 := by omega
      subst hN0
      simp
  · have hne : (0 : Nat) ≠ i := by omega
    have hne0 : ¬(i = 0) := by omega
    rw [List.getElem?_set_ne hne, List.getElem?_replicate, if_neg hne0]

/-- A fresh chunk with its first slot written has length `N`. -/
theorem newChunk_length (N : Nat) {T : Type} (v : T) :
    ((List.replicate N (none : Slot T)).set 0 (some v)).length = N := by
  simp

/-- A chunk all of whose indexed slots are initialized has all its member
slots initialized. -/
theorem full_chunk_mem {T : Type} {c : List (Slot T)}
    (h : ∀ i, i < c.length → (((c)[i]?).getD none).isSome) :
    ∀ s ∈ c, s.isSome := by
  intro s hs
  obtain ⟨i, hi, rfl⟩ := List.mem_iff_getElem.mp hs
  have := h i hi
  rwa [List.getElem?_eq_getElem hi] at this

/-! ## Invariant preservation -/

/-- A fresh arena satisfies the invariant. -/
theorem inv_new {T : Type} (N : Nat) : Inv N (Arena.new T) := trivial

/-- An arena whose head chunk is freshly allocated (first slot written,
cursor at 1) satisfies the invariant, provided the older chunks are all
full. -/
theorem inv_fresh {T : Type} {N : Nat} (hN : 1 ≤ N) (v : T)
    (rest : List (List (Slot T)))
    (hrest : ∀ c ∈ rest, c.length = N ∧ ∀ s ∈ c, s.isSome) :
    Inv N (some ⟨(List.replicate N (none : Slot T)).set 0 (some v),
                 rest, 1, N⟩) := by
  have h0 : 0 < N := hN
  refine ⟨rfl, hN, newChunk_length N v, ?_, ?_, hrest⟩
  · intro i hi
    dsimp only at hi ⊢
    have hi0 : i = 0 := by omega
    subst hi0
    rw [newChunk_getElem]
    simp [h0]
  · intro i h1 h2
    dsimp only at h2 ⊢
    rw [newChunk_getElem]
    have hne0 : ¬(i = 0) := by omega
    rw [if_pos h1, if_neg hne0]

/-- `alloc` preserves the invariant (for any capacity `N ≥ 1`). -/
theorem inv_alloc {T : Type} {N : Nat} (hN : 1 ≤ N) {a : Arena T}
    (h : Inv N a) (v : T) : Inv N (Arena.alloc N a v).1 := by
  match a with
  | none =>
      show Inv N (Arena.allocNewChunk N none v).1
      exact inv_fresh hN v [] (by simp)
  | some ia =>
      obtain ⟨hend, hptr, hlen, hinit, huninit, hfull⟩ := h
      simp only [Arena.alloc]
      by_cases hspace : ia.ptr < ia.end_
      · rw [if_pos hspace]
        have hptrlen : ia.ptr < ia.head_chunk.length := by omega
        refine ⟨hend, ?_, ?_, ?_, ?_, hfull⟩
        · dsimp only
          omega
        · dsimp only
          simpa using hlen
        · intro i hi
          dsimp only at hi ⊢
          rcases Nat.lt_or_ge i ia.ptr with hlt | hge
          · have hne : ia.ptr ≠ i := by omega
            rw [List.getElem?_set_ne hne]
            exact hinit i hlt
          · have hip : i = ia.ptr := by omega
            subst hip
            rw [List.getElem?_set_self hptrlen]
            simp
        · intro i h1 h2
          dsimp only at h2 ⊢
          have hne : ia.ptr ≠ i := by omega
          rw [List.getElem?_set_ne hne]
          exact huninit i h1 (by omega)
      · rw [if_neg hspace]
        show Inv N (Arena.allocNewChunk N (some ia) v).1
        have hfullhead : ia.ptr = N := by omega
        refine inv_fresh hN v _ ?_
        intro c hc
        simp only [List.mem_cons] at hc
        rcases hc with rfl | hc
        · refine ⟨hlen, full_chunk_mem ?_⟩
          intro i hi
          exact hinit i (by omega)
        · exact hfull c hc

/-- The invariant holds after any run of allocations. -/
theorem inv_runAllocs {T : Type} {N : Nat} (hN : 1 ≤ N) (vs : List T) :
    Inv N (Arena.runAllocs N vs) := by
  have main : ∀ (vs : List T) (a : Arena T), Inv N a →
      Inv N (vs.foldl (fun a v => (Arena.alloc N a v).1) a) := by
    intro vs
    induction vs with
    | nil => intro a h; exact h
    | cons v vs ih =>
        intro a h
        exact ih _ (inv_alloc hN h v)
  exact main vs (Arena.new T) (inv_new N)

/-! ## Destructor counting -/

/-- Each allocation adds exactly one element that `destroy` will later
drop: `destroy`'s destructor-call count grows by one per `alloc`. -/
theorem destroyCount_alloc {T : Type} {N : Nat} {a : Arena T}
    (h : Inv N a) (v : T) :
    Arena.destroyCount (Arena.alloc N a v).1 = Arena.destroyCount a + 1 := by
  match a with
  | none => simp [Arena.alloc, Arena.allocNewChunk, Arena.destroyCount]
  | some ia =>
      obtain ⟨hend, hptr, hlen, _, _, _⟩ := h
      simp only [Arena.alloc]
      by_cases hspace : ia.ptr < ia.end_
      · rw [if_pos hspace]
        simp only [Arena.destroyCount]
        omega
      · rw [if_neg hspace]
        simp only [Arena.allocNewChunk, Arena.destroyCount, List.map_cons,
          List.sum_cons]
        omega

/-- Allocation never fails: the resulting state always has a chunk. -/
theorem alloc_isSome {T : Type} (N : Nat) (a : Arena T) (v : T) :
    (Arena.alloc N a v).1.isSome := by
  match a with
  | none => simp [Arena.alloc, Arena.allocNewChunk]
  | some ia =>
      simp only [Arena.alloc]
      by_cases hspace : ia.ptr < ia.end_
      · rw [if_pos hspace]
        simp
      · rw [if_neg hspace]
        simp [Arena.allocNewChunk]

/-- Generalized run lemma: folding allocations over any invariant state
adds one pending destructor call per allocated value. -/
theorem destroyCount_foldl {T : Type} {N : Nat} (hN : 1 ≤ N) :
    ∀ (vs : List T) (a : Arena T), Inv N a →
      Arena.destroyCount (vs.foldl (fun a v => (Arena.alloc N a v).1) a) =
        Arena.destroyCount a + vs.length := by
  intro vs
  induction vs with
  | nil => intro a _; simp
  | cons v vs ih =>
      intro a h
      simp only [List.foldl_cons, List.length_cons]
      rw [ih _ (inv_alloc hN h v), destroyCount_alloc h v]
      omega

/-! ## Chunk-list helpers -/

/-- The oldest-first chunk list of a non-empty arena. -/
theorem chunksOldestFirst_some {T : Type} (ia : InnerArena T) :
    Arena.chunksOldestFirst (some ia) =
      ia.next_chunks.reverse ++ [ia.head_chunk] := by
  simp [Arena.chunksOldestFirst]

/-- `read` unfolded through `getElem?`. -/
theorem read_eq {T : Type} (a : Arena T) (r : Ref) :
    Arena.read a r =
      (((Arena.chunksOldestFirst a)[r.chunk]?).getD []).getD r.slot none := by
  simp [Arena.read]

/-- Indexing into a list extended on the right by one element. -/
theorem getElem?_append_singleton {α : Type} (l : List α) (c : α) (i : Nat) :
    (l ++ [c])[i]? =
      if i < l.length then (l)[i]?
      else if i = l.length then some c else none := by
  rcases Nat.lt_or_ge i l.length with h | h
  · rw [List.getElem?_append_left h, if_pos h]
  · rw [List.getElem?_append_right h, if_neg (by omega)]
    rcases Nat.eq_or_lt_of_le h with heq | hlt
    · rw [if_pos heq.symm]
      have : i - l.length = 0 := by omega
      rw [this]
      exact List.getElem?_cons_zero
    · rw [if_neg (by omega)]
      apply List.getElem?_eq_none
      simp
      omega

/-! ## Frame property: allocation never touches initialized slots -/

/-- One allocation step leaves every initialized slot unchanged: any handle
that reads back a value before an `alloc` reads back the same value after
it. -/
theorem read_alloc_of_init {T : Type} {N : Nat} {a : Arena T}
    (h : Inv N a) (v : T) {r : Ref} {x : T}
    (hr : Arena.read a r = some x) :
    Arena.read (Arena.alloc N a v).1 r = some x := by
  match a with
  | none =>
      exfalso
      simp [Arena.read, Arena.chunksOldestFirst] at hr
  | some ia =>
      obtain ⟨hend, hptr, hlen, hinit, huninit, hfull⟩ := h
      rw [read_eq, chunksOldestFirst_some, getElem?_append_singleton] at hr
      simp only [Arena.alloc]
      by_cases hspace : ia.ptr < ia.end_
      · rw [if_pos hspace, read_eq, chunksOldestFirst_some]
        dsimp only
        rw [getElem?_append_singleton]
        rcases Nat.lt_or_ge r.chunk ia.next_chunks.reverse.length with hc | hc
        · rw [if_pos hc] at hr ⊢
          exact hr
        · rw [if_neg (by omega)] at hr ⊢
          by_cases hceq : r.chunk = ia.next_chunks.reverse.length
          · rw [if_pos hceq] at hr ⊢
            simp only [Option.getD_some] at hr ⊢
            by_cases hs : r.slot = ia.ptr
            · exfalso
              have hu : ia.head_chunk[ia.ptr]? = some none :=
                huninit ia.ptr (by omega) (Nat.le_refl _)
              rw [hs] at hr
              rw [List.getD_eq_getElem?_getD, hu] at hr
              simp at hr
            · have hne : ia.ptr ≠ r.slot := fun hh => hs hh.symm
              rw [List.getD_eq_getElem?_getD, List.getElem?_set_ne hne,
                ← List.getD_eq_getElem?_getD]
              exact hr
          · rw [if_neg hceq] at hr ⊢
            simp at hr
      · rw [if_neg hspace]
        show Arena.read (Arena.allocNewChunk N (some ia) v).1 r = some x
        rw [read_eq]
        simp only [Arena.allocNewChunk, Arena.chunksOldestFirst]
        rw [List.reverse_cons, List.reverse_cons]
        -- chunk list is (next.reverse ++ [head_chunk]) ++ [new chunk]
        rw [getElem?_append_singleton]
        have hrl : ia.next_chunks.reverse.length = ia.next_chunks.length :=
          List.length_reverse _
        rcases Nat.lt_or_ge r.chunk ia.next_chunks.reverse.length with hc | hc
        · rw [if_pos (by simp; omega)]
          rw [List.getElem?_append_left hc]
          rw [if_pos hc] at hr
          exact hr
        · by_cases hceq : r.chunk = ia.next_chunks.reverse.length
          · rw [if_pos (by simp; omega)]
            rw [List.getElem?_append_right hc]
            rw [if_neg (by omega), if_pos hceq] at hr
            have h0 : r.chunk - ia.next_chunks.reverse.length = 0 := by omega
            rw [h0, List.getElem?_cons_zero]
            exact hr
          · exfalso
            rw [if_neg (by omega), if_neg hceq] at hr
            simp at hr

/-- Iterated version: every initialized slot survives any further sequence
of allocations unchanged. -/
theorem read_foldl_of_init {T : Type} {N : Nat} (hN : 1 ≤ N) :
    ∀ (ws : List T) (a : Arena T), Inv N a → ∀ (r : Ref) (x : T),
      Arena.read a r = some x →
      Arena.read (ws.foldl (fun a v => (Arena.alloc N a v).1) a) r = some x := by
  intro ws
  induction ws with
  | nil => intro a _ r x hr; exact hr
  | cons w ws ih =>
      intro a h r x hr
      simp only [List.foldl_cons]
      exact ih _ (inv_alloc hN h w) r x (read_alloc_of_init h w hr)

/-! ## The returned reference is valid and initialized -/

/-- Reading back through the handle returned by `alloc` yields the value
just allocated, and the handle's slot index is in bounds. -/
theorem read_alloc_self {T : Type} {N : Nat} (hN : 1 ≤ N) {a : Arena T}
    (h : Inv N a) (v : T) :
    Arena.read (Arena.alloc N a v).1 (Arena.alloc N a v).2 = some v ∧
    (Arena.alloc N a v).2.slot < N := by
  have h0 : 0 < N := hN
  match a with
  | none =>
      constructor
      · rw [read_eq]
        simp only [Arena.alloc, Arena.allocNewChunk]
        rw [chunksOldestFirst_some]
        dsimp only
        rw [List.reverse_nil, List.nil_append, List.getElem?_cons_zero]
        simp only [Option.getD_some]
        rw [List.getD_eq_getElem?_getD, newChunk_getElem]
        simp [h0]
      · simp only [Arena.alloc, Arena.allocNewChunk]
        exact h0
  | some ia =>
      obtain ⟨hend, hptr, hlen, hinit, huninit, hfull⟩ := h
      simp only [Arena.alloc]
      by_cases hspace : ia.ptr < ia.end_
      · rw [if_pos hspace]
        constructor
        · rw [read_eq, chunksOldestFirst_some]
          dsimp only
          rw [getElem?_append_singleton]
          rw [if_neg (by simp), if_pos (by simp)]
          simp only [Option.getD_some]
          rw [List.getD_eq_getElem?_getD, List.getElem?_set_self (by omega)]
          simp
        · dsimp only
          omega
      · rw [if_neg hspace]
        constructor
        · show Arena.read (Arena.allocNewChunk N (some ia) v).1
            (Arena.allocNewChunk N (some ia) v).2 = some v
          rw [read_eq]
          simp only [Arena.allocNewChunk, Arena.chunksOldestFirst]
          rw [List.reverse_cons, List.reverse_cons]
          rw [getElem?_append_singleton]
          have hrl : ia.next_chunks.reverse.length = ia.next_chunks.length :=
            List.length_reverse _
          rw [if_neg (by simp), if_pos (by simp)]
          simp only [Option.getD_some]
          rw [List.getD_eq_getElem?_getD, newChunk_getElem]
          simp [h0]
        · show (Arena.allocNewChunk N (some ia) v).2.slot < N
          simp only [Arena.allocNewChunk]
          exact h0

/-! ## Coupling between the two variants -/

/-- Writing a slot of the back chunk of a list extended on the right. -/
theorem setBack_concat {T : Type} (l : List (List (Slot T)))
    (c : List (Slot T)) (p : Nat) (v : T) :
    DoublyLinkedArena.setBack (l ++ [c]) p v = l ++ [c.set p (some v)] := by
  simp [DoublyLinkedArena.setBack, List.getLast?_concat]

/-- The coupling relation matches the observations: emptiness. -/
theorem rel_is_empty {T : Type} {a : Arena T} {d : DoublyLinkedArena T}
    (hrel : Rel a d) :
    DoublyLinkedArena.is_empty d = Arena.is_empty a := by
  match a with
  | none =>
      obtain ⟨_, _, hl⟩ := hrel
      simp [DoublyLinkedArena.is_empty, Arena.is_empty, hl]
  | some ia =>
      obtain ⟨_, _, hl⟩ := hrel
      simp [DoublyLinkedArena.is_empty, Arena.is_empty, hl]

/-- The coupling relation matches the observations: free-slot counts. -/
theorem rel_free_slots {T : Type} {a : Arena T} {d : DoublyLinkedArena T}
    (hrel : Rel a d) :
    DoublyLinkedArena.free_slots_in_current_chunk d =
      Arena.free_slots_in_current_chunk a := by
  match a with
  | none =>
      obtain ⟨hp, he, _⟩ := hrel
      simp [DoublyLinkedArena.free_slots_in_current_chunk,
        Arena.free_slots_in_current_chunk, hp, he]
  | some ia =>
      obtain ⟨hp, he, _⟩ := hrel
      simp [DoublyLinkedArena.free_slots_in_current_chunk,
        Arena.free_slots_in_current_chunk, hp, he]

/-- The coupling relation matches the observations: every handle reads the
same value in both variants. -/
theorem rel_read {T : Type} {a : Arena T} {d : DoublyLinkedArena T}
    (hrel : Rel a d) (r : Ref) :
    DoublyLinkedArena.read d r = Arena.read a r := by
  match a with
  | none =>
      obtain ⟨_, _, hl⟩ := hrel
      simp [DoublyLinkedArena.read, Arena.read, Arena.chunksOldestFirst, hl]
  | some ia =>
      obtain ⟨_, _, hl⟩ := hrel
      simp [DoublyLinkedArena.read, Arena.read, Arena.chunksOldestFirst, hl]

/-- One allocation step preserves the coupling: the doubly linked variant
succeeds, returns the same handle as the linked-chunk variant, and the
states remain coupled. -/
theorem rel_alloc {T : Type} {N : Nat} (hN : 1 ≤ N) {a : Arena T}
    {d : DoublyLinkedArena T} (hinv : Inv N a) (hrel : Rel a d) (v : T) :
    ∃ p, DoublyLinkedArena.alloc N d v = some p ∧
      p.2 = (Arena.alloc N a v).2 ∧ Rel (Arena.alloc N a v).1 p.1 := by
  have h0 : 0 < N := hN
  match a with
  | none =>
      obtain ⟨hp, he, hl⟩ := hrel
      refine ⟨(⟨[(List.replicate N (none : Slot T)).set 0 (some v)],
                some 1, some N⟩, ⟨0, 0⟩), ?_, ?_, ?_⟩
      · simp only [DoublyLinkedArena.alloc, DoublyLinkedArena.tryFast, hp,
          he, hl]
        have hsb := setBack_concat ([] : List (List (Slot T)))
          (List.replicate N (none : Slot T)) 0 v
        simp only [List.nil_append] at hsb
        simp [hsb, h0]
      · simp [Arena.alloc, Arena.allocNewChunk]
      · simp only [Arena.alloc, Arena.allocNewChunk]
        exact ⟨rfl, rfl, by simp⟩
  | some ia =>
      obtain ⟨hp, he, hl⟩ := hrel
      obtain ⟨hend, hptr, hlen, _, _, _⟩ := hinv
      by_cases hspace : ia.ptr < ia.end_
      · refine ⟨(⟨(ia.head_chunk.set ia.ptr (some v) ::
                   ia.next_chunks).reverse,
                  some (ia.ptr + 1), some ia.end_⟩,
                 ⟨ia.next_chunks.length, ia.ptr⟩), ?_, ?_, ?_⟩
        · simp only [DoublyLinkedArena.alloc, DoublyLinkedArena.tryFast, hp,
            he, hl]
          rw [if_pos hspace]
          simp [setBack_concat]
        · simp only [Arena.alloc]
          rw [if_pos hspace]
        · simp only [Arena.alloc]
          rw [if_pos hspace]
          exact ⟨rfl, rfl, rfl⟩
      · refine ⟨(⟨(ia.head_chunk :: ia.next_chunks).reverse ++
                  [(List.replicate N (none : Slot T)).set 0 (some v)],
                  some 1, some N⟩,
                 ⟨ia.next_chunks.length + 1, 0⟩), ?_, ?_, ?_⟩
        · simp only [DoublyLinkedArena.alloc, DoublyLinkedArena.tryFast, hp,
            he, hl]
          rw [if_neg hspace]
          rw [setBack_concat]
          simp [h0]
        · simp only [Arena.alloc]
          rw [if_neg hspace]
          simp [Arena.allocNewChunk]
        · simp only [Arena.alloc]
          rw [if_neg hspace]
          refine ⟨rfl, rfl, ?_⟩
          simp [Arena.allocNewChunk]

/-- Running the same allocation sequence keeps the two variants coupled,
and the doubly linked run never fails. -/
theorem rel_foldl {T : Type} {N : Nat} (hN : 1 ≤ N) :
    ∀ (vs : List T) (a : Arena T) (d : DoublyLinkedArena T),
      Inv N a → Rel a d →
      ∃ d', vs.foldlM
              (fun d v => (DoublyLinkedArena.alloc N d v).map Prod.fst) d =
              some d' ∧
        Rel (vs.foldl (fun a v => (Arena.alloc N a v).1) a) d' := by
  intro vs
  induction vs with
  | nil =>
      intro a d hinv hrel
      exact ⟨d, rfl, hrel⟩
  | cons v vs ih =>
      intro a d hinv hrel
      obtain ⟨p, hp, _, hrel'⟩ := rel_alloc hN hinv hrel v
      obtain ⟨d', hd', hrel''⟩ := ih _ p.1 (inv_alloc hN hinv v) hrel'
      refine ⟨d', ?_, hrel''⟩
      rw [List.foldlM_cons, hp]
      simpa using hd'

/-- A nonempty run of allocations leaves the arena with a chunk. -/
theorem foldl_alloc_isSome {T : Type} (N : Nat) :
    ∀ (vs : List T) (a : Arena T), a.isSome →
      (vs.foldl (fun a v => (Arena.alloc N a v).1) a).isSome := by
  intro vs
  induction vs with
  | nil => intro a h; exact h
  | cons v vs ih =>
      intro a _
      exact ih _ (alloc_isSome N a v)

/-! ## Claim theorems -/

/-- C1: destroying an arena into which `K` elements were allocated (any
`K ≥ 0`, any chunk capacity `N ≥ 1`) invokes the element destructor exactly
`K` times, regardless of how many chunks were created — `destroy` drops the
first cursor-offset slots of the head chunk and all slots of every older
chunk — and destroying an arena with zero allocations performs zero
destructor calls. -/
theorem destroy_dtor_count {T : Type} (N : Nat) (hN : 1 ≤ N)
    (vs : List T) :
    Arena.destroyCount (Arena.runAllocs N vs) = vs.length ∧
    Arena.destroyCount (Arena.runAllocs N ([] : List T)) = 0 := by
  constructor
  · rw [Arena.runAllocs, destroyCount_foldl hN vs (Arena.new T) (inv_new N)]
    simp [Arena.new, Arena.destroyCount]
  · rfl

/-- Witness for C1: seven allocations at chunk capacity 3 (two full chunks
plus a partial head) yield exactly seven destructor calls. -/
theorem destroy_dtor_count_witness :
    (1 ≤ 3) ∧
    (Arena.destroyCount (Arena.runAllocs 3 [1, 2, 3, 4, 5, 6, 7]) = 7 ∧
     Arena.destroyCount (Arena.runAllocs 3 ([] : List Nat)) = 0) :=
  ⟨by decide, destroy_dtor_count 3 (by decide) [1, 2, 3, 4, 5, 6, 7]⟩

/-- C2: on every (invariant-satisfying) arena state, `alloc` follows
exactly the specified algorithm: with a head chunk that has space, the
value goes into the slot at the cursor (all other slots of all chunks
untouched), the cursor advances by one, and the returned handle names that
slot; otherwise a fresh chunk of `N` slots is created with the previous
head (if any) linked as its successor, cursor one past the first slot, end
one past the last, and the value in the new chunk's first slot. -/
theorem alloc_follows_algorithm {T : Type} {N : Nat} (hN : 1 ≤ N)
    (a : Arena T) (v : T) (h : Inv N a) :
    (∀ ia, a = some ia → ia.ptr < ia.end_ →
      ∃ ia', (Arena.alloc N a v).1 = some ia' ∧
        ia'.head_chunk[ia.ptr]? = some (some v) ∧
        (∀ j, j ≠ ia.ptr → ia'.head_chunk[j]? = ia.head_chunk[j]?) ∧
        ia'.ptr = ia.ptr + 1 ∧ ia'.end_ = ia.end_ ∧
        ia'.next_chunks = ia.next_chunks ∧
        (Arena.alloc N a v).2 = ⟨ia.next_chunks.length, ia.ptr⟩) ∧
    (∀ ia, a = some ia → ¬ia.ptr < ia.end_ →
      ∃ ia', (Arena.alloc N a v).1 = some ia' ∧
        ia'.head_chunk.length = N ∧
        ia'.head_chunk[0]? = some (some v) ∧
        (∀ j, 1 ≤ j → j < N → ia'.head_chunk[j]? = some none) ∧
        ia'.next_chunks = ia.head_chunk :: ia.next_chunks ∧
        ia'.ptr = 1 ∧ ia'.end_ = N ∧
        (Arena.alloc N a v).2 = ⟨ia.next_chunks.length + 1, 0⟩) ∧
    (a = none →
      ∃ ia', (Arena.alloc N a v).1 = some ia' ∧
        ia'.head_chunk.length = N ∧
        ia'.head_chunk[0]? = some (some v) ∧
        (∀ j, 1 ≤ j → j < N → ia'.head_chunk[j]? = some none) ∧
        ia'.next_chunks = [] ∧ ia'.ptr = 1 ∧ ia'.end_ = N ∧
        (Arena.alloc N a v).2 = ⟨0, 0⟩) := by
  have h0 : 0 < N := hN
  refine ⟨?_, ?_, ?_⟩
  · rintro ia rfl hsp
    obtain ⟨hend, hptr, hlen, _, _, _⟩ := h
    have halloc : Arena.alloc N (some ia) v =
        (some { ia with head_chunk := ia.head_chunk.set ia.ptr (some v),
                        ptr := ia.ptr + 1 },
         ⟨ia.next_chunks.length, ia.ptr⟩) := by
      simp only [Arena.alloc]
      rw [if_pos hsp]
    rw [halloc]
    refine ⟨_, rfl, ?_, ?_, rfl, rfl, rfl, rfl⟩
    · dsimp only
      rw [List.getElem?_set_self (by omega)]
    · intro j hj
      dsimp only
      have hne : ia.ptr ≠ j := fun hh => hj hh.symm
      rw [List.getElem?_set_ne hne]
  · rintro ia rfl hsp
    have halloc : Arena.alloc N (some ia) v =
        (some ⟨(List.replicate N (none : Slot T)).set 0 (some v),
               ia.head_chunk :: ia.next_chunks, 1, N⟩,
         ⟨ia.next_chunks.length + 1, 0⟩) := by
      simp only [Arena.alloc]
      rw [if_neg hsp]
      rfl
    rw [halloc]
    refine ⟨_, rfl, newChunk_length N v, ?_, ?_, rfl, rfl, rfl, rfl⟩
    · dsimp only
      rw [newChunk_getElem]
      simp [h0]
    · intro j h1 h2
      dsimp only
      rw [newChunk_getElem]
      have hne0 : ¬(j = 0) := by omega
      rw [if_pos h2, if_neg hne0]
  · rintro rfl
    have halloc : Arena.alloc N (none : Arena T) v =
        (some ⟨(List.replicate N (none : Slot T)).set 0 (some v),
               [], 1, N⟩, ⟨0, 0⟩) := rfl
    rw [halloc]
    refine ⟨_, rfl, newChunk_length N v, ?_, ?_, rfl, rfl, rfl, rfl⟩
    · dsimp only
      rw [newChunk_getElem]
      simp [h0]
    · intro j h1 h2
      dsimp only
      rw [newChunk_getElem]
      have hne0 : ¬(j = 0) := by omega
      rw [if_pos h2, if_neg hne0]

/-- Witness for C2: instantiated at capacity 2 on an arena whose head
chunk holds one element, allocating the value 5 (the fast path applies;
the other two branches are vacuous). -/
theorem alloc_follows_algorithm_witness :
    (1 ≤ 2) ∧ Inv 2 (some ⟨[some 1, none], [], 1, 2⟩ : Arena Nat) ∧
    (∀ ia, (some ⟨[some 1, none], [], 1, 2⟩ : Arena Nat) = some ia →
      ia.ptr < ia.end_ →
      ∃ ia', (Arena.alloc 2 (some ⟨[some 1, none], [], 1, 2⟩) 5).1 =
          some ia' ∧
        ia'.head_chunk[ia.ptr]? = some (some 5) ∧
        (∀ j, j ≠ ia.ptr → ia'.head_chunk[j]? = ia.head_chunk[j]?) ∧
        ia'.ptr = ia.ptr + 1 ∧ ia'.end_ = ia.end_ ∧
        ia'.next_chunks = ia.next_chunks ∧
        (Arena.alloc 2 (some ⟨[some 1, none], [], 1, 2⟩) 5).2 =
          ⟨ia.next_chunks.length, ia.ptr⟩) :=
  ⟨by decide, by decide,
   (alloc_follows_algorithm (by decide)
     (some ⟨[some 1, none], [], 1, 2⟩) 5 (by decide)).1⟩

/-- C3: the operations preserve the state invariant (cursor bounds
`chunk_start ≤ cursor ≤ end = chunk_start + N`, head-chunk initialization
monotonicity, full initialization of non-head chunks): it holds on a fresh
arena and is preserved by every `alloc`; the queries and `destroy` take
the state as given and never modify it. -/
theorem ops_preserve_invariant {T : Type} {N : Nat} (hN : 1 ≤ N) :
    Inv N (Arena.new T) ∧
    ∀ (a : Arena T) (v : T), Inv N a → Inv N (Arena.alloc N a v).1 :=
  ⟨inv_new N, fun _ v h => inv_alloc hN h v⟩

/-- Witness for C3: at capacity 2, the invariant holds on the fresh arena
and after allocating into a half-filled head chunk. -/
theorem ops_preserve_invariant_witness :
    (1 ≤ 2) ∧ Inv 2 (Arena.new Nat) ∧
    Inv 2 ((Arena.alloc 2 (some ⟨[some 5, none], [], 1, 2⟩) 9).1) :=
  ⟨by decide, (ops_preserve_invariant (by decide)).1,
   (ops_preserve_invariant (by decide)).2
     (some ⟨[some 5, none], [], 1, 2⟩) 9 (by decide)⟩

/-- C4: for any sequence of allocations, every slot filled by an earlier
`alloc` still reads back its last-written value after any number of
further `alloc` calls (including calls that create new chunks): allocation
never modifies, moves, or overwrites a previously initialized slot. -/
theorem alloc_stability {T : Type} {N : Nat} (hN : 1 ≤ N)
    (vs ws : List T) (r : Ref) (x : T)
    (hr : Arena.read (Arena.runAllocs N vs) r = some x) :
    Arena.read (Arena.runAllocs N (vs ++ ws)) r = some x := by
  rw [Arena.runAllocs, List.foldl_append]
  exact read_foldl_of_init hN ws _ (inv_runAllocs hN vs) r x hr

/-- Witness for C4: at capacity 3, the second value allocated still reads
back after three further allocations that trigger chunk growth (the
spec's §8 scenario). -/
theorem alloc_stability_witness :
    (1 ≤ 3) ∧
    Arena.read (Arena.runAllocs 3 [1, 2, 3, 4]) ⟨0, 1⟩ = some 2 ∧
    Arena.read (Arena.runAllocs 3 ([1, 2, 3, 4] ++ [5, 6, 7])) ⟨0, 1⟩ =
      some 2 :=
  ⟨by decide, by decide,
   alloc_stability (by decide) [1, 2, 3, 4] [5, 6, 7] ⟨0, 1⟩ 2 (by decide)⟩

/-- C5: evaluation at the failing input (capacity `N = 0`, element size 4,
e.g. `i32`): `Arena::new`'s contract check accepts a zero chunk capacity —
it rejects only zero-sized element types — whereas `DoublyLinkedArena::new`
rejects it; and an allocation into a zero-capacity arena immediately breaks
the cursor-bounds invariant (`cursor = 1 > 0 = end`), mirroring the
out-of-bounds write of the first slot that the Rust fallback path would
perform on a zero-slot chunk. -/
theorem new_zero_capacity_eval :
    Arena.newChecks 0 4 = true ∧
    DoublyLinkedArena.newChecks 0 4 = false ∧
    ¬Inv 0 ((Arena.alloc 0 (Arena.new Nat) 7).1) :=
  ⟨rfl, rfl, by decide⟩

/-- C6: on every invariant-satisfying arena, `alloc` succeeds and returns
a handle to a valid initialized slot holding the allocated value; in the
fallback path the fresh chunk's first slot is always in bounds because
`N ≥ 1`, so no failure branch is reachable. -/
theorem alloc_total_valid {T : Type} {N : Nat} (hN : 1 ≤ N)
    (a : Arena T) (v : T) (h : Inv N a) :
    (Arena.alloc N a v).1.isSome = true ∧
    (Arena.alloc N a v).2.slot < N ∧
    Arena.read (Arena.alloc N a v).1 (Arena.alloc N a v).2 = some v :=
  ⟨alloc_isSome N a v, (read_alloc_self hN h v).2,
   (read_alloc_self hN h v).1⟩

/-- Witness for C6: at capacity 1 with a full head chunk, allocating 9
takes the fallback path, succeeds, stays in bounds, and reads back. -/
theorem alloc_total_valid_witness :
    (1 ≤ 1) ∧ Inv 1 (some ⟨[some 4], [], 1, 1⟩ : Arena Nat) ∧
    ((Arena.alloc 1 (some ⟨[some 4], [], 1, 1⟩) 9).1.isSome = true ∧
     (Arena.alloc 1 (some ⟨[some 4], [], 1, 1⟩) 9).2.slot < 1 ∧
     Arena.read (Arena.alloc 1 (some ⟨[some 4], [], 1, 1⟩) 9).1
       (Arena.alloc 1 (some ⟨[some 4], [], 1, 1⟩) 9).2 = some 9) :=
  ⟨by decide, by decide,
   alloc_total_valid (by decide) (some ⟨[some 4], [], 1, 1⟩) 9 (by decide)⟩

/-- C7: `free_slots_in_current_chunk` returns `end - cursor` for the head
chunk of a non-empty arena, and for chunk capacity 3 the seven sequential
allocations 1..7 observe the free-slot sequence 2, 1, 0, 2, 1, 0, 2. -/
theorem free_slots_observed {T : Type} :
    (∀ ia : InnerArena T,
        Arena.free_slots_in_current_chunk (some ia) =
          some (ia.end_ - ia.ptr)) ∧
    ((List.range 7).map (fun k =>
        Arena.free_slots_in_current_chunk
          (Arena.runAllocs 3 ((List.range (k + 1)).map (· + 1)))) =
      [some 2, some 1, some 0, some 2, some 1, some 0, some 2]) :=
  ⟨fun _ => rfl, by decide⟩

/-- C8: `is_empty` is true exactly when no `alloc` call was ever made:
true on a fresh arena, false after the first allocation and forever after,
whatever the allocation sequence. -/
theorem is_empty_iff_no_allocs {T : Type} (N : Nat) (vs : List T) :
    Arena.is_empty (Arena.runAllocs N vs) = true ↔ vs = [] := by
  match vs with
  | [] => simp [Arena.runAllocs, Arena.is_empty, Arena.new]
  | v :: rest =>
      have hs := foldl_alloc_isSome N rest (Arena.alloc N (Arena.new T) v).1
        (alloc_isSome N (Arena.new T) v)
      constructor
      · intro h
        exfalso
        rw [Arena.runAllocs, List.foldl_cons] at h
        simp only [Arena.is_empty, Option.isNone_iff_eq_none] at h
        rw [h] at hs
        simp at hs
      · intro h
        exact absurd h (List.cons_ne_nil v rest)

/-- C9: the sequence-of-blocks variant `DoublyLinkedArena` has the same
external contract as the linked-chunk `Arena`: for every capacity `N ≥ 1`
and every allocation sequence, its allocations all succeed and the two
variants agree on emptiness, on the free-slot count (including `none` on
the empty arena), and on the value read through every handle. -/
theorem double_variant_same_contract {T : Type} (N : Nat) (hN : 1 ≤ N)
    (vs : List T) :
    ∃ d, DoublyLinkedArena.runAllocs N vs = some d ∧
      DoublyLinkedArena.is_empty d = Arena.is_empty (Arena.runAllocs N vs) ∧
      DoublyLinkedArena.free_slots_in_current_chunk d =
        Arena.free_slots_in_current_chunk (Arena.runAllocs N vs) ∧
      ∀ r, DoublyLinkedArena.read d r = Arena.read (Arena.runAllocs N vs) r := by
  obtain ⟨d, hd, hrel⟩ := rel_foldl hN vs (Arena.new T)
    (DoublyLinkedArena.new T) (inv_new N) ⟨rfl, rfl, rfl⟩
  exact ⟨d, hd, rel_is_empty hrel, rel_free_slots hrel,
    fun r => rel_read hrel r⟩

/-- Witness for C9: both variants observed after the same four allocations
at capacity 3. -/
theorem double_variant_same_contract_witness :
    (1 ≤ 3) ∧
    ∃ d, DoublyLinkedArena.runAllocs 3 [10, 20, 30, 40] = some d ∧
      DoublyLinkedArena.is_empty d =
        Arena.is_empty (Arena.runAllocs 3 [10, 20, 30, 40]) ∧
      DoublyLinkedArena.free_slots_in_current_chunk d =
        Arena.free_slots_in_current_chunk
          (Arena.runAllocs 3 [10, 20, 30, 40]) ∧
      ∀ r, DoublyLinkedArena.read d r =
        Arena.read (Arena.runAllocs 3 [10, 20, 30, 40]) r :=
  ⟨by decide, double_variant_same_contract 3 (by decide) [10, 20, 30, 40]⟩

/-- C10: dropping an `Arena` implicitly (without `destroy`) releases every
chunk of the chain but runs zero element destructors, for every arena
state — only the explicit `destroy` operation runs element destructors. -/
theorem implicit_drop_no_dtors {T : Type} (a : Arena T) :
    implicitDropDtorCount a = 0 ∧
    implicitDropFreedChunks a = Arena.numChunks a := by
  have hsum : ∀ l : List (Slot T), (l.map slotDropGlueDtors).sum = 0 := by
    intro l
    induction l with
    | nil => rfl
    | cons s t ih => simp [slotDropGlueDtors, ih]
  constructor
  · match a with
    | none => rfl
    | some ia =>
        have hsum2 : ∀ l : List (List (Slot T)),
            (l.map fun c => ((c.map slotDropGlueDtors).sum : Nat)).sum = 0 := by
          intro l
          induction l with
          | nil => rfl
          | cons c t ih => simp [hsum, ih]
        simp only [implicitDropDtorCount]
        rw [hsum, hsum2]
  · match a with
    | none => rfl
    | some ia =>
        simp [implicitDropFreedChunks, Arena.numChunks,
          Arena.chunksOldestFirst]
        omega

end LinkedListArena
